import Mathlib

/-!
Verification of the normalization layer of the pubcrawl repository:
citation formatting, drug-name normalization, tree-text extraction,
author/DOI parsing, US/UK label extraction and the label crosswalk
comparator.  Each definition is a shallow embedding of the corresponding
TypeScript function; JavaScript string and Map semantics are modelled
explicitly on lists of characters and association lists.
-/

namespace PubCrawl

/-! ## JavaScript string primitives, modelled on lists of characters -/

/-- JS whitespace characters relevant to `trim` and the regex class for
whitespace (ASCII subset; the repository only processes ASCII here). -/
def jsWs (c : Char) : Bool :=
  c == ' ' || c == '\t' || c == '\n' || c == '\r' || c == '\x0b' || c == '\x0c'

/-- Drop leading and trailing whitespace, as JS `String.prototype.trim`. -/
def trimList (l : List Char) : List Char :=
  ((l.dropWhile jsWs).reverse.dropWhile jsWs).reverse

/-- JS `s.trim()` on strings. -/
def jsTrimStr (s : String) : String :=
  ⟨trimList s.data⟩

/-- JS `s.toLowerCase()` (ASCII). -/
def jsToLower (s : String) : String :=
  ⟨s.data.map Char.toLower⟩

/-- Is `pat` a prefix of `l`? -/
def listHasPre : List Char → List Char → Bool
  | [], _ => true
  | _ :: _, [] => false
  | c :: cs, h :: hs => c == h && listHasPre cs hs

/-- Does `hay` contain `needle` as a contiguous sublist?
Models JS `hay.includes(needle)`. -/
def listContains : List Char → List Char → Bool
  | hay, needle =>
    if listHasPre needle hay then true
    else
      match hay with
      | [] => false
      | _ :: hs => listContains hs needle

/-- JS `s.includes(sub)`. -/
def strContains (s sub : String) : Bool :=
  listContains s.data sub.data

/-- JS `s.split(" ")`: split at every space, keeping empty pieces. -/
def splitSp : List Char → List (List Char)
  | [] => [[]]
  | c :: cs =>
    match splitSp cs with
    | [] => [[]]
    | g :: gs => if c == ' ' then [] :: g :: gs else (c :: g) :: gs

/-- Join pieces with a separator, as JS `Array.prototype.join`. -/
def joinSep (sep : List Char) : List (List Char) → List Char
  | [] => []
  | [x] => x
  | x :: y :: xs => x ++ sep ++ joinSep sep (y :: xs)

/-! ## Citation formatter, Style A (`formatApa`, src/unnamed/part_004) -/

/-- One author formatted for APA style: the piece `p[0] + "."` of the JS
code; `p[0]` on an empty string is `undefined`, which JS coerces to the
text `undefined` when concatenated. -/
def apaInitialPiece (p : List Char) : List Char :=
  match p with
  | [] => "undefined.".data
  | c :: _ => [c, '.']

/-- Format a single author name `"Last First Middle"` as
`"Last, F. M."`, following the arrow function inside `formatApa`. -/
def formatApaAuthor (a : String) : String :=
  let parts := splitSp a.data
  let last := parts.headD []
  let initials := joinSep " ".data (parts.tail.map apaInitialPiece)
  ⟨last ++ ", ".data ++ initials⟩

/-- The author-list string built by `formatApa` (src/unnamed/part_004
lines 100-120): up to 7 authors are all listed; more than 7 elide to the
first six, an ellipsis marker, and the final author. -/
def formatApaAuthors (authors : List String) : String :=
  if authors.length = 0 then ""
  else if authors.length ≤ 7 then
    String.intercalate ", " (authors.map formatApaAuthor)
  else
    String.intercalate ", " ((authors.take 6).map formatApaAuthor)
      ++ ", ... " ++ formatApaAuthor authors.getLast!

/-- The normalized article subset consumed by the citation formatters. -/
structure ArticleInfo where
  authors : List String
  title : String
  journal : String
  year : String
  volume : String
  issue : String
  pages : String
  doi : String
  pmid : String

/-- Full Style A rendering (`formatApa`). -/
def formatApa (info : ArticleInfo) : String :=
  let authorStr := formatApaAuthors info.authors
  let yearPart := if info.year ≠ "" then " (" ++ info.year ++ ")." else "."
  let titlePart := if info.title.endsWith "." then " " ++ info.title else " " ++ info.title ++ "."
  let journalPart := " *" ++ info.journal ++ "*"
  let volPart := if info.volume ≠ "" then ", *" ++ info.volume ++ "*" else ""
  let issuePart := if info.issue ≠ "" then "(" ++ info.issue ++ ")" else ""
  let pagesPart := if info.pages ≠ "" then ", " ++ info.pages else ""
  let doiPart := if info.doi ≠ "" then " https://doi.org/" ++ info.doi else ""
  jsTrimStr (authorStr ++ yearPart ++ titlePart ++ journalPart ++ volPart ++ issuePart ++ pagesPart ++ "." ++ doiPart)

/-! ## Entity normalizer (`normalizeDrugName`, src/unnamed/part_009) -/

/-- JS regex word characters, the class used by the boundary assertion. -/
def isWordChar (c : Char) : Bool :=
  c.isAlphanum || c == '_'

/-- Word-boundary test between a previous character (is it a word
character?) and an optional adjacent character. -/
def boundaryAt (prevIsWord : Bool) (next : Option Char) : Bool :=
  prevIsWord != (match next with | some c => isWordChar c | none => false)

/-- Length of the text matched by the regex pattern `\bw(s?)\b` at the
start of `rest`, given whether the previous character was a word
character; `none` when the pattern does not match there.  The optional
greedy `s` alternative is tried first, as a backtracking regex engine
does. -/
def patAt (w : List Char) (plural : Bool) (prevW : Bool) (rest : List Char) : Option Nat :=
  if w = [] then none
  else
    let tryPat : List Char → Option Nat := fun pat =>
      if listHasPre pat rest
          && boundaryAt prevW (pat.head?)
          && boundaryAt (match pat.getLast? with | some c => isWordChar c | none => prevW)
               ((rest.drop pat.length).head?)
      then some pat.length else none
    match (if plural then tryPat (w ++ ['s']) else none) with
    | some n => some n
    | none => tryPat w

/-- Global replacement of `\bw(s?)\b` by the empty string, scanning left
to right and skipping past each match, as JS `String.prototype.replace`
with a global regex.  The `skip` counter counts characters of a match
still to be consumed; a new match is only attempted once it reaches
zero, which is exactly the `lastIndex` behaviour of a global regex. -/
def goRemove (w : List Char) (plural : Bool) : Nat → Bool → List Char → List Char
  | _, _, [] => []
  | skip + 1, _, c :: cs => goRemove w plural skip (isWordChar c) cs
  | 0, prevW, c :: cs =>
    match patAt w plural prevW (c :: cs) with
    | some n => goRemove w plural (n - 1) (isWordChar c) cs
    | none => c :: goRemove w plural 0 (isWordChar c) cs

/-- First index at which `" - "` occurs, as JS `indexOf`. -/
def idxOfSep : List Char → Option Nat
  | [] => none
  | c :: cs =>
    if listHasPre " - ".data (c :: cs) then some 0
    else (idxOfSep cs).map (· + 1)

/-- Truncate at the first `" - "` occurrence when its index is positive
(`if (dashIdx > 0)` in the source). -/
def truncateAtSep (l : List Char) : List Char :=
  match idxOfSep l with
  | some i => if i > 0 then l.take i else l
  | none => l

/-- Collapse every whitespace run to a single space
(JS `replace(/\s+/g, " ")`). -/
def collapseWs : Bool → List Char → List Char
  | _, [] => []
  | prevWs, c :: cs =>
    if jsWs c then
      if prevWs then collapseWs true cs else ' ' :: collapseWs true cs
    else c :: collapseWs false cs

/-- The fixed dosage-form word list of `normalizeDrugName`. -/
def dosageForms : List String :=
  ["tablet", "capsule", "injection", "solution", "suspension", "cream",
   "ointment", "gel", "patch", "inhaler", "spray", "drops", "syrup",
   "powder", "suppository", "extended-release", "delayed-release",
   "oral", "topical", "intravenous", "subcutaneous", "intramuscular"]

/-- The fixed salt-form word list of `normalizeDrugName`. -/
def salts : List String :=
  ["hydrochloride", "sodium", "potassium", "mesylate", "fumarate",
   "succinate", "tartrate", "maleate", "besylate", "calcium"]

/-- `normalizeDrugName` (src/unnamed/part_009 lines 7-35): lowercase,
truncate at the first manufacturer separator, strip dosage-form words
(with optional plural `s`) as whole words, strip salt-form words as
whole words, remove `,()` punctuation, collapse whitespace and trim. -/
def normalizeDrugName (title : String) : String :=
  let name0 := title.data.map Char.toLower
  let name1 := truncateAtSep name0
  let name2 := dosageForms.foldl (fun acc w => goRemove w.data true 0 false acc) name1
  let name3 := salts.foldl (fun acc w => goRemove w.data false 0 false acc) name2
  let name4 := name3.filter (fun c => !(c == ',' || c == '(' || c == ')'))
  ⟨trimList (collapseWs false name4)⟩

/-! ## Parsed-tree values (`fast-xml-parser` output) and `extractText`
(src/src/lib/cache.ts, xml-parser segment) -/

/-- A JavaScript value as produced by the XML parser: a string, a
number, `null`/`undefined`, an array, or a plain object whose fields
map names to values. -/
inductive JVal where
  | jstr : String → JVal
  | jnum : Int → JVal
  | jnull : JVal
  | jarr : List JVal → JVal
  | jobj : List (String × JVal) → JVal

/-- JS `String(v)` coercion: strings verbatim, numbers printed, `null`
as the text null, plain objects as the object placeholder, arrays as
their comma-joined elements with null elements blank. -/
def jsString : JVal → String
  | .jstr s => s
  | .jnum n => toString n
  | .jnull => "null"
  | .jobj _ => "[object Object]"
  | .jarr es => String.intercalate "," (jsStringArr es)
where jsStringArr : List JVal → List String
  | [] => []
  | .jnull :: vs => "" :: jsStringArr vs
  | v :: vs => jsString v :: jsStringArr vs

/-- Does the field name denote a structural attribute
(`key.startsWith("@_")` in the source)? -/
def keyIsAttr (k : String) : Bool :=
  listHasPre "@_".data k.data

/-- The value of the direct-text field, when the object has one
(the check `"#text" in obj` followed by the read). -/
def findTextVal (fs : List (String × JVal)) : Option JVal :=
  (fs.find? (fun kv => kv.1 == "#text")).map (fun kv => kv.2)

mutual

/-- `extractText` (src/src/lib/cache.ts lines 98-122): strings are
returned verbatim, numbers printed, null/absent input yields the empty
string; an object with a direct text field returns its JS string
coercion, otherwise every non-attribute child field is recursively
extracted (array-valued children element-wise, joined with a space),
the pieces are joined with a space, and the result is trimmed.  Arrays
reaching this function directly are traversed through their entries
exactly as objects are (JS `Object.entries`). -/
def extractText : JVal → String
  | .jstr s => s
  | .jnum n => toString n
  | .jnull => ""
  | .jarr es => jsTrimStr (String.intercalate " " (extractPieces es))
  | .jobj fs =>
    match findTextVal fs with
    | some v => jsString v
    | none => jsTrimStr (String.intercalate " " (extractFields fs))

/-- Recursive extraction of a list of values. -/
def extractList : List JVal → List String
  | [] => []
  | v :: vs => extractText v :: extractList vs

/-- One piece per entry of an array that is itself being traversed. -/
def extractPieces : List JVal → List String
  | [] => []
  | .jarr es :: vs => String.intercalate " " (extractList es) :: extractPieces vs
  | v :: vs => extractText v :: extractPieces vs

/-- One piece per non-attribute field of an object: array-valued fields
are extracted element-wise and joined with a space, everything else is
extracted directly. -/
def extractFields : List (String × JVal) → List String
  | [] => []
  | (k, .jarr es) :: fs =>
    if keyIsAttr k then extractFields fs
    else String.intercalate " " (extractList es) :: extractFields fs
  | (k, v) :: fs =>
    if keyIsAttr k then extractFields fs
    else extractText v :: extractFields fs

end

/-! ## Bibliographic author parsing (`parseAuthors`, src/src/lib/cache.ts
xml-parser segment lines 129-146) -/

/-- One author element of a citation document, its four optional name
fields modelled as strings that are empty when absent (JS truthiness
on these fields is emptiness of the string). -/
structure Author where
  LastName : String
  ForeName : String
  Initials : String
  CollectiveName : String
deriving DecidableEq

/-- The string built for one author element. -/
def authorString (a : Author) : String :=
  if a.LastName ≠ "" ∧ a.ForeName ≠ "" then a.LastName ++ " " ++ a.ForeName
  else if a.LastName ≠ "" ∧ a.Initials ≠ "" then a.LastName ++ " " ++ a.Initials
  else if a.CollectiveName ≠ "" then a.CollectiveName
  else if a.LastName ≠ "" then a.LastName
  else if a.ForeName ≠ "" then a.ForeName
  else ""

/-- `parseAuthors`: map every author element to its display string and
drop falsy (empty) entries (`.filter(Boolean)`). -/
def parseAuthors (authors : List Author) : List String :=
  (authors.map authorString).filter (fun s => s ≠ "")

/-! ## DOI extraction from the alternate-identifier list
(src/src/tools/abstract.ts lines 76-86 and src/unnamed/part_004 lines
251-261 — the identical loop in the citation tool) -/

/-- JS truthiness of a parsed value (`if (elocationIds)`). -/
def jsTruthy : JVal → Bool
  | .jnull => false
  | .jstr s => s ≠ ""
  | .jnum n => n ≠ 0
  | _ => true

/-- `Array.isArray(x) ? x : [x]` wrapping. -/
def toIds : JVal → List JVal
  | .jarr es => es
  | v => [v]

/-- Attribute lookup on an entry; only plain objects carry
attributes. -/
def attrOf (v : JVal) (k : String) : Option JVal :=
  match v with
  | .jobj fs => (fs.find? (fun kv => kv.1 == k)).map (fun kv => kv.2)
  | _ => none

/-- The loop condition `typeof eid === "object" && eid["@_EIdType"] ===
"doi"`: strict equality to the string doi holds exactly when the
attribute is that string. -/
def isDoiEntry (v : JVal) : Bool :=
  match attrOf v "@_EIdType" with
  | some (.jstr t) => t == "doi"
  | _ => false

/-- The scan over the identifier entries: the first matching entry is
text-extracted and the loop breaks. -/
def doiLoop : List JVal → String
  | [] => ""
  | eid :: rest => if isDoiEntry eid then extractText eid else doiLoop rest

/-- The DOI extraction of the abstract and citation tools. -/
def extractDoi (eloc : JVal) : String :=
  if jsTruthy eloc then doiLoop (toIds eloc) else ""

/-- Follows the claim text only (not the source): strip a
case-insensitive doi-colon marker from the front of the value when
present. -/
def stripDoiMarker (s : String) : String :=
  if listHasPre "doi:".data (jsToLower s).data then ⟨s.data.drop 4⟩ else s

/-! ## Label sections, the JS `Map` and the crosswalk table
(src/unnamed/part_001, src/unnamed/part_008) -/

/-- A label section: vocabulary code, title, flattened content. -/
structure LabelSection where
  code : String
  title : String
  content : String
deriving DecidableEq

/-- JS `Map.prototype.set` on an insertion-ordered association list: an
existing key keeps its position and gets the new value, a new key is
appended. -/
def jsMapSet (m : List (String × LabelSection)) (k : String) (v : LabelSection) :
    List (String × LabelSection) :=
  if m.any (fun p => p.1 == k) then
    m.map (fun p => if p.1 == k then (k, v) else p)
  else m ++ [(k, v)]

/-- JS `Map.prototype.get`. -/
def jsMapGet (m : List (String × LabelSection)) (k : String) : Option LabelSection :=
  (m.find? (fun p => p.1 == k)).map (fun p => p.2)

/-- The section-by-code map built by `fetchUsSections` (src/unnamed/
part_008 lines 42-45) and `fetchUkSections` (lines 71-74): every raw
section is `set` under its code, so a later duplicate overwrites an
earlier one. -/
def buildSectionMap (ss : List LabelSection) : List (String × LabelSection) :=
  ss.foldl (fun m s => jsMapSet m s.code ⟨s.code, s.title, s.content⟩) []

/-- One row of the crosswalk table. -/
structure SectionMapping where
  topic : String
  us_loinc : String
  uk_code : String
deriving DecidableEq

/-- `SECTION_MAP` (src/unnamed/part_001): the fixed topic crosswalk. -/
def SECTION_MAP : List SectionMapping :=
  [⟨"Indications", "34067-9", "4.1"⟩,
   ⟨"Dosing", "34068-7", "4.2"⟩,
   ⟨"Contraindications", "34070-3", "4.3"⟩,
   ⟨"Warnings", "43685-7", "4.4"⟩,
   ⟨"Drug Interactions", "34073-7", "4.5"⟩,
   ⟨"Pregnancy", "42228-7", "4.6"⟩,
   ⟨"Adverse Reactions", "34084-4", "4.8"⟩,
   ⟨"Overdosage", "34088-5", "4.9"⟩,
   ⟨"Clinical Pharmacology", "34090-1", "5.1"⟩]

/-- `filterSectionMap`: no requested topics (or an empty list) keeps the
full table; otherwise a row survives when some request matches its
topic by case-insensitive substring in either direction, or equals one
of its two codes verbatim. -/
def filterSectionMap (requestedTopics : Option (List String)) : List SectionMapping :=
  match requestedTopics with
  | none => SECTION_MAP
  | some [] => SECTION_MAP
  | some reqs =>
    SECTION_MAP.filter (fun mapping => reqs.any (fun req =>
      let lower := jsTrimStr (jsToLower req)
      strContains (jsToLower mapping.topic) lower
        || strContains lower (jsToLower mapping.topic)
        || mapping.us_loinc == req
        || mapping.uk_code == req))

/-- Result of one jurisdiction fetch: the section-by-code map and the
source URL (absent when the search found nothing). -/
structure FetchResult where
  sections : List (String × LabelSection)
  source : Option String
deriving DecidableEq

/-- `Promise.allSettled` settling as in lines 110-111 of the compare
tool: a rejected fetch degrades to an empty map and no source. -/
def settleFetch (r : Except String FetchResult) : FetchResult :=
  match r with
  | .ok v => v
  | .error _ => ⟨[], none⟩

/-- One comparison row: topic plus the two optional matched sections. -/
structure LabelComparison where
  topic : String
  us_section : Option LabelSection
  uk_section : Option LabelSection
deriving DecidableEq

/-- The successful payload of the compare tool. -/
structure CompareLabelsResult where
  drug : String
  comparisons : List LabelComparison
  us_source : Option String
  uk_source : Option String
deriving DecidableEq

/-- The error exits of the compare tool: no mapping rows matched the
requested topics, or neither jurisdiction produced sections (carrying
the individual rejection reasons when present). -/
inductive CompareError where
  | noMappings : CompareError
  | notFound : Option (List String) → CompareError
deriving DecidableEq

/-- The pure core of `registerCompareLabelsTool` (src/unnamed/part_008
lines 87-144), over the two independently settled fetch outcomes. -/
def compareLabelsTool (drug : String) (requested : Option (List String))
    (usResult ukResult : Except String FetchResult) :
    Except CompareError CompareLabelsResult :=
  let mappings := filterSectionMap requested
  if mappings.length = 0 then .error .noMappings
  else
    let us := settleFetch usResult
    let uk := settleFetch ukResult
    if us.sections.length = 0 ∧ uk.sections.length = 0 then
      let errors :=
        (match usResult with | .error r => ["US: " ++ r] | .ok _ => []) ++
        (match ukResult with | .error r => ["UK: " ++ r] | .ok _ => [])
      .error (.notFound (if errors.length > 0 then some errors else none))
    else
      .ok ⟨drug,
        mappings.map (fun m =>
          ⟨m.topic, jsMapGet us.sections m.us_loinc, jsMapGet uk.sections m.uk_code⟩),
        us.source, uk.source⟩

/-! ## JS map lemmas and the claim theorems for the label records -/

/-- Setting a present key finds the new value. -/
theorem jsMapGet_set_self (m : List (String × LabelSection)) (k : String) (v : LabelSection) :
    jsMapGet (jsMapSet m k v) k = some v := by
  unfold jsMapGet jsMapSet
  by_cases h : m.any (fun p => p.1 == k)
  · rw [if_pos h]
    induction m with
    | nil => simp at h
    | cons p m ih =>
      by_cases hp : p.1 = k
      · rw [List.map_cons, if_pos (by simpa using hp),
          List.find?_cons_of_pos _ (by simp)]
        rfl
      · have h2 : m.any (fun p => p.1 == k) = true := by
          simpa [hp] using h
        rw [List.map_cons, if_neg (by simpa using hp),
          List.find?_cons_of_neg _ (by simpa using hp)]
        exact ih h2
  · rw [if_neg h, List.find?_append]
    have hfind : m.find? (fun p => p.1 == k) = none := by
      rw [List.find?_eq_none]
      intro p hp hc
      exact h (List.any_eq_true.mpr ⟨p, hp, hc⟩)
    rw [hfind, List.find?_cons_of_pos _ (by simp)]
    rfl

/-- Setting one key leaves every other key unchanged. -/
theorem jsMapGet_set_other (m : List (String × LabelSection)) (k q : String) (v : LabelSection)
    (hne : q ≠ k) : jsMapGet (jsMapSet m k v) q = jsMapGet m q := by
  unfold jsMapGet jsMapSet
  by_cases h : m.any (fun p => p.1 == k)
  · rw [if_pos h]
    clear h
    induction m with
    | nil => rfl
    | cons p m ih =>
      by_cases hp : p.1 = k
      · have h1 : (((k, v) : String × LabelSection).1 == q) = false := by
          simpa using fun hc => hne hc.symm
        have h2 : (p.1 == q) = false := by
          simp only [hp, beq_eq_false_iff_ne, ne_eq]
          exact fun hc => hne hc.symm
        rw [List.map_cons, if_pos (by simpa using hp)]
        simp only [List.find?_cons, h1, h2]
        exact ih
      · have hmapped : (if (p.1 == k) = true then (k, v) else p) = p := by
          simp [hp]
        rw [List.map_cons, hmapped]
        cases hpq : (p.1 == q) <;> simp only [List.find?_cons, hpq]
        exact ih
  · rw [if_neg h, List.find?_append]
    have hlast : List.find? (fun p => p.1 == q) [(k, v)] = none := by
      rw [List.find?_eq_none]
      intro p hp hc
      simp at hp
      subst hp
      have hkq : k = q := by simpa using hc
      exact hne hkq.symm
    cases hm : m.find? (fun p => p.1 == q) <;> simp [hlast, hm]

/-- Setting preserves distinctness of the stored keys. -/
theorem jsMapSet_keys_nodup (m : List (String × LabelSection)) (k : String) (v : LabelSection)
    (h : (m.map Prod.fst).Nodup) : ((jsMapSet m k v).map Prod.fst).Nodup := by
  unfold jsMapSet
  by_cases hany : m.any (fun p => p.1 == k)
  · rw [if_pos hany]
    have hkeys : (m.map (fun p => if p.1 == k then (k, v) else p)).map Prod.fst
        = m.map Prod.fst := by
      rw [List.map_map]
      apply List.map_congr_left
      intro p _
      by_cases hp : p.1 = k
      · simp [hp]
      · simp [hp]
    rw [hkeys]; exact h
  · rw [if_neg hany]
    have hk : k ∉ m.map Prod.fst := by
      intro hmem
      obtain ⟨p, hp, hpk⟩ := List.mem_map.mp hmem
      exact (List.any_eq_false.mp (Bool.eq_false_iff.mpr hany) p hp) (by simpa using hpk)
    rw [List.map_append]
    rw [List.nodup_append]
    refine ⟨h, by simp, ?_⟩
    intro a ha hb
    simp at hb
    subst hb
    exact hk ha

/-- Folding `jsMapSet` over raw sections: lookup afterwards is the last
raw section carrying the code, falling back to the initial map. -/
theorem buildSectionMap_go_get (ss : List LabelSection) :
    ∀ (m : List (String × LabelSection)) (k : String),
      jsMapGet (ss.foldl (fun m s => jsMapSet m s.code ⟨s.code, s.title, s.content⟩) m) k =
        ((ss.filter (fun s => s.code == k)).getLast? <|> jsMapGet m k) := by
  induction ss with
  | nil => intro m k; simp
  | cons s ss ih =>
    intro m k
    rw [List.foldl_cons, ih, List.filter_cons]
    by_cases hk : s.code = k
    · rw [if_pos (by simpa using hk)]
      by_cases hnil : ss.filter (fun x => x.code == k) = []
      · rw [hnil, List.getLast?_singleton, Option.some_orElse]
        have hv : jsMapGet (jsMapSet m s.code ⟨s.code, s.title, s.content⟩) k = some s := by
          rw [← hk]
          exact jsMapGet_set_self m s.code ⟨s.code, s.title, s.content⟩
        rw [List.getLast?_eq_none_iff.mpr rfl, Option.none_orElse, hv]
      · obtain ⟨t, l, hl⟩ : ∃ t l, ss.filter (fun x => x.code == k) = t :: l := by
          cases hc : ss.filter (fun x => x.code == k) with
          | nil => exact absurd hc hnil
          | cons t l => exact ⟨t, l, rfl⟩
        rw [hl, List.getLast?_cons_cons]
        cases hg : (t :: l).getLast? with
        | none => exact absurd (List.getLast?_eq_none_iff.mp hg) (by simp)
        | some u => rw [Option.some_orElse, Option.some_orElse]
    · rw [if_neg (by simpa using hk)]
      cases hg : (ss.filter (fun x => x.code == k)).getLast? with
      | none =>
        rw [Option.none_orElse, Option.none_orElse]
        exact jsMapGet_set_other m s.code k _ (fun hc => hk hc.symm)
      | some u => rw [Option.some_orElse, Option.some_orElse]

/-- C6 amended: the section-by-code maps built for the label comparison
tool (`fetchUsSections` and `fetchUkSections`) keep at most one section
per code, and when the raw extractor output repeats a code the section
stored in the map is the last one emitted.  The standalone US and UK
label tools return the raw extractor section list with no per-code
deduplication, so their records can carry duplicate codes. -/
theorem buildSectionMap_last_wins :
    (∀ ss : List LabelSection, ((buildSectionMap ss).map Prod.fst).Nodup) ∧
    (∀ (ss : List LabelSection) (k : String),
      jsMapGet (buildSectionMap ss) k = (ss.filter (fun s => s.code == k)).getLast?) := by
  constructor
  · intro ss
    unfold buildSectionMap
    suffices hgen : ∀ (m : List (String × LabelSection)), (m.map Prod.fst).Nodup →
        ((ss.foldl (fun m s => jsMapSet m s.code ⟨s.code, s.title, s.content⟩) m).map
          Prod.fst).Nodup by
      exact hgen [] (by simp)
    induction ss with
    | nil => intro m hm; simpa using hm
    | cons s ss ih =>
      intro m hm
      exact ih _ (jsMapSet_keys_nodup m s.code _ hm)
  · intro ss k
    unfold buildSectionMap
    rw [buildSectionMap_go_get]
    cases hc : (ss.filter (fun s => s.code == k)).getLast? <;> simp [jsMapGet]

/-- C2: whenever the crosswalk comparator produces a comparison result,
the output has exactly one row per (possibly caller-filtered) mapping
row, in table order, each row pairing the looked-up sections; a topic
with neither side present still yields a row with both sides `none`. -/
theorem compareLabels_rows (drug : String) (req : Option (List String))
    (usR ukR : Except String FetchResult) (r : CompareLabelsResult)
    (h : compareLabelsTool drug req usR ukR = .ok r) :
    r.comparisons.length = (filterSectionMap req).length ∧
    (∀ i : Nat, r.comparisons[i]? = ((filterSectionMap req)[i]?).map
      (fun m => ⟨m.topic, jsMapGet (settleFetch usR).sections m.us_loinc,
                 jsMapGet (settleFetch ukR).sections m.uk_code⟩)) ∧
    (∀ m ∈ filterSectionMap req,
      jsMapGet (settleFetch usR).sections m.us_loinc = none →
      jsMapGet (settleFetch ukR).sections m.uk_code = none →
      (⟨m.topic, none, none⟩ : LabelComparison) ∈ r.comparisons) := by
  unfold compareLabelsTool at h
  by_cases h0 : (filterSectionMap req).length = 0
  · rw [if_pos h0] at h
    exact absurd h (by simp)
  · rw [if_neg h0] at h
    by_cases h1 : (settleFetch usR).sections.length = 0 ∧ (settleFetch ukR).sections.length = 0
    · rw [if_pos h1] at h
      exact absurd h (by simp)
    · rw [if_neg h1] at h
      have hr := (Except.ok.inj h).symm
      subst hr
      refine ⟨by simp, fun i => by simp [List.getElem?_map], fun m hm hus huk => ?_⟩
      simp only []
      exact List.mem_map.mpr ⟨m, hm, by rw [hus, huk]⟩

/-- Concrete US fetch outcome used by the C2 witness. -/
def usFetchW : Except String FetchResult :=
  .ok ⟨[("34067-9", ⟨"34067-9", "INDICATIONS", "use"⟩)], some "us-url"⟩

/-- Concrete comparison payload produced for the C2 witness. -/
def compareResW : CompareLabelsResult :=
  ⟨"metformin",
   [⟨"Indications", some ⟨"34067-9", "INDICATIONS", "use"⟩, none⟩,
    ⟨"Dosing", none, none⟩,
    ⟨"Contraindications", none, none⟩,
    ⟨"Warnings", none, none⟩,
    ⟨"Drug Interactions", none, none⟩,
    ⟨"Pregnancy", none, none⟩,
    ⟨"Adverse Reactions", none, none⟩,
    ⟨"Overdosage", none, none⟩,
    ⟨"Clinical Pharmacology", none, none⟩],
   some "us-url", none⟩

/-- C2 witness: a successful comparison against the full table with one
US section and a failed UK fetch has nine rows, the unmatched topics
present with both sides absent. -/
theorem compareLabels_rows_witness :
    compareLabelsTool "metformin" none usFetchW (.error "uk down") = .ok compareResW ∧
    compareResW.comparisons.length = (filterSectionMap none).length :=
  ⟨rfl,
   (compareLabels_rows "metformin" none usFetchW (.error "uk down") compareResW rfl).1⟩

/-- C5: when both upstream fetches fail the comparator reports the
distinct aggregate failure carrying both underlying reasons; a failure
of one side alone still yields a successful partial comparison built
from the surviving side. -/
theorem compareLabels_failure_aggregation (drug : String) (req : Option (List String)) :
    (∀ e1 e2 : String, filterSectionMap req ≠ [] →
      compareLabelsTool drug req (.error e1) (.error e2) =
        .error (.notFound (some ["US: " ++ e1, "UK: " ++ e2]))) ∧
    (∀ (e : String) (uk : FetchResult), filterSectionMap req ≠ [] → uk.sections ≠ [] →
      compareLabelsTool drug req (.error e) (.ok uk) =
        .ok ⟨drug, (filterSectionMap req).map (fun m =>
          ⟨m.topic, none, jsMapGet uk.sections m.uk_code⟩), none, uk.source⟩) ∧
    (∀ (e : String) (us : FetchResult), filterSectionMap req ≠ [] → us.sections ≠ [] →
      compareLabelsTool drug req (.ok us) (.error e) =
        .ok ⟨drug, (filterSectionMap req).map (fun m =>
          ⟨m.topic, jsMapGet us.sections m.us_loinc, none⟩), us.source, none⟩) := by
  refine ⟨fun e1 e2 hmap => ?_, fun e uk hmap huk => ?_, fun e us hmap hus => ?_⟩
  · unfold compareLabelsTool
    rw [if_neg (by simpa [List.length_eq_zero] using hmap)]
    simp [settleFetch]
  · unfold compareLabelsTool
    rw [if_neg (by simpa [List.length_eq_zero] using hmap)]
    rw [if_neg (by simp [settleFetch, List.length_eq_zero, huk])]
    simp [settleFetch, jsMapGet]
  · unfold compareLabelsTool
    rw [if_neg (by simpa [List.length_eq_zero] using hmap)]
    rw [if_neg (by simp [settleFetch, List.length_eq_zero, hus])]
    simp [settleFetch, jsMapGet]

/-- C5 witness: concrete double failure and concrete one-sided failure
with a surviving UK section. -/
theorem compareLabels_failure_aggregation_witness :
    (filterSectionMap none ≠ []) ∧
    compareLabelsTool "m" none (.error "us boom") (.error "uk boom") =
      .error (.notFound (some ["US: us boom", "UK: uk boom"])) ∧
    compareLabelsTool "m" none (.error "us boom")
        (.ok ⟨[("4.1", ⟨"4.1", "Therapeutic indications", "txt"⟩)], some "uk-url"⟩) =
      .ok ⟨"m", (filterSectionMap none).map (fun m =>
        ⟨m.topic, none,
          jsMapGet [("4.1", ⟨"4.1", "Therapeutic indications", "txt"⟩)] m.uk_code⟩),
        none, some "uk-url"⟩ :=
  ⟨by decide,
   (compareLabels_failure_aggregation "m" none).1 "us boom" "uk boom" (by decide),
   (compareLabels_failure_aggregation "m" none).2.1 "us boom"
     ⟨[("4.1", ⟨"4.1", "Therapeutic indications", "txt"⟩)], some "uk-url"⟩
     (by decide) (by decide)⟩

/-! ## UK label section filtering (`parseSmpcSections`,
src/src/lib/emc.ts lines 216-238) -/

/-- A parsed SmPC section. -/
structure SmpcSection where
  code : String
  title : String
  content : String
deriving DecidableEq

/-- The per-request match predicate of the filter inside
`parseSmpcSections`: code equality against the raw or the
lowercased-and-trimmed request, then a one-direction title substring
test, then the ordered fixed synonym keyword rules. -/
def smpcMatches (s : SmpcSection) (req : String) : Bool :=
  let lower := jsTrimStr (jsToLower req)
  if s.code == lower || s.code == req then true
  else if strContains (jsToLower s.title) lower then true
  else if strContains lower "indication" then s.code == "4.1"
  else if strContains lower "dosage" || strContains lower "dosing"
      || strContains lower "posology" then s.code == "4.2"
  else if strContains lower "contraindication" then s.code == "4.3"
  else if strContains lower "warning" || strContains lower "precaution" then s.code == "4.4"
  else if strContains lower "interaction" then s.code == "4.5"
  else if strContains lower "pregnancy" || strContains lower "fertility" then s.code == "4.6"
  else if strContains lower "adverse" || strContains lower "undesirable"
      || strContains lower "side effect" then s.code == "4.8"
  else if strContains lower "overdose" || strContains lower "overdosage" then s.code == "4.9"
  else if strContains lower "pharmacodynamic" then s.code == "5.1"
  else if strContains lower "pharmacokinetic" then s.code == "5.2"
  else false

/-- The request-filtering stage of `parseSmpcSections`: with a
non-empty request list, keep the sections some request matches. -/
def filterSmpcSections (results : List SmpcSection) (requestedSections : Option (List String)) :
    List SmpcSection :=
  match requestedSections with
  | some reqs =>
    if reqs.length > 0 then results.filter (fun s => reqs.any (smpcMatches s)) else results
  | none => results

/-- The ordered synonym keyword table, as a function from the
lowercased-and-trimmed request to the fixed section code of the first
matching rule. -/
def smpcSynonymCode (lower : String) : Option String :=
  if strContains lower "indication" then some "4.1"
  else if strContains lower "dosage" || strContains lower "dosing"
      || strContains lower "posology" then some "4.2"
  else if strContains lower "contraindication" then some "4.3"
  else if strContains lower "warning" || strContains lower "precaution" then some "4.4"
  else if strContains lower "interaction" then some "4.5"
  else if strContains lower "pregnancy" || strContains lower "fertility" then some "4.6"
  else if strContains lower "adverse" || strContains lower "undesirable"
      || strContains lower "side effect" then some "4.8"
  else if strContains lower "overdose" || strContains lower "overdosage" then some "4.9"
  else if strContains lower "pharmacodynamic" then some "5.1"
  else if strContains lower "pharmacokinetic" then some "5.2"
  else none

/-- Follows the claim text only (not the source): a section matches a
request when the code equals the request verbatim, or the title
contains the request or the request contains the title
(case-insensitive, either direction), or the request triggers a
synonym rule for the section code. -/
def claimedSmpcMatch (s : SmpcSection) (req : String) : Bool :=
  let lower := jsTrimStr (jsToLower req)
  s.code == req
    || strContains (jsToLower s.title) lower
    || strContains lower (jsToLower s.title)
    || (match smpcSynonymCode lower with
        | some c => s.code == c
        | none => false)

/-- The amended per-request predicate: code equality against the raw or
the lowercased-and-trimmed request, the one-direction title substring
test (title contains request only), or the first matching synonym
keyword rule naming the section code. -/
def amendedSmpcMatch (s : SmpcSection) (req : String) : Bool :=
  let lower := jsTrimStr (jsToLower req)
  s.code == req
    || s.code == lower
    || strContains (jsToLower s.title) lower
    || (match smpcSynonymCode lower with
        | some c => s.code == c
        | none => false)

set_option maxHeartbeats 1600000 in
/-- The synonym-rule match written as the ordered keyword chain. -/
theorem synMatchChain (lower code : String) :
    (match smpcSynonymCode lower with | some c => code == c | none => false) =
      (if strContains lower "indication" then code == "4.1"
       else if strContains lower "dosage" || strContains lower "dosing"
           || strContains lower "posology" then code == "4.2"
       else if strContains lower "contraindication" then code == "4.3"
       else if strContains lower "warning" || strContains lower "precaution" then code == "4.4"
       else if strContains lower "interaction" then code == "4.5"
       else if strContains lower "pregnancy" || strContains lower "fertility" then code == "4.6"
       else if strContains lower "adverse" || strContains lower "undesirable"
           || strContains lower "side effect" then code == "4.8"
       else if strContains lower "overdose" || strContains lower "overdosage" then code == "4.9"
       else if strContains lower "pharmacodynamic" then code == "5.1"
       else if strContains lower "pharmacokinetic" then code == "5.2"
       else false) := by
  unfold smpcSynonymCode
  split_ifs <;> rfl

/-- The source predicate agrees with the amended flat predicate. -/
theorem smpcMatches_eq_amended (s : SmpcSection) (req : String) :
    smpcMatches s req = amendedSmpcMatch s req := by
  unfold smpcMatches amendedSmpcMatch
  simp only [synMatchChain]
  generalize (s.code == jsTrimStr (jsToLower req)) = a
  generalize (s.code == req) = b
  generalize strContains (jsToLower s.title) (jsTrimStr (jsToLower req)) = t
  generalize (if strContains (jsTrimStr (jsToLower req)) "indication" then s.code == "4.1"
       else if strContains (jsTrimStr (jsToLower req)) "dosage"
           || strContains (jsTrimStr (jsToLower req)) "dosing"
           || strContains (jsTrimStr (jsToLower req)) "posology" then s.code == "4.2"
       else if strContains (jsTrimStr (jsToLower req)) "contraindication" then s.code == "4.3"
       else if strContains (jsTrimStr (jsToLower req)) "warning"
           || strContains (jsTrimStr (jsToLower req)) "precaution" then s.code == "4.4"
       else if strContains (jsTrimStr (jsToLower req)) "interaction" then s.code == "4.5"
       else if strContains (jsTrimStr (jsToLower req)) "pregnancy"
           || strContains (jsTrimStr (jsToLower req)) "fertility" then s.code == "4.6"
       else if strContains (jsTrimStr (jsToLower req)) "adverse"
           || strContains (jsTrimStr (jsToLower req)) "undesirable"
           || strContains (jsTrimStr (jsToLower req)) "side effect" then s.code == "4.8"
       else if strContains (jsTrimStr (jsToLower req)) "overdose"
           || strContains (jsTrimStr (jsToLower req)) "overdosage" then s.code == "4.9"
       else if strContains (jsTrimStr (jsToLower req)) "pharmacodynamic" then s.code == "5.1"
       else if strContains (jsTrimStr (jsToLower req)) "pharmacokinetic" then s.code == "5.2"
       else false) = x
  cases a <;> cases b <;> cases t <;> cases x <;> simp

set_option maxHeartbeats 1600000 in
/-- C4 counterexample: the claimed either-direction title match keeps
the driving-ability section for a request that strictly contains its
title, but the one-direction title test of the code drops it, no
synonym rule firing. -/
theorem smpc_filter_direction_counterexample :
    claimedSmpcMatch ⟨"4.7", "Effects on ability to drive and use machines", ""⟩
      "effects on ability to drive and use machines today" = true ∧
    filterSmpcSections [⟨"4.7", "Effects on ability to drive and use machines", ""⟩]
      (some ["effects on ability to drive and use machines today"]) = [] ∧
    filterSmpcSections [⟨"4.7", "Effects on ability to drive and use machines", ""⟩]
        (some ["effects on ability to drive and use machines today"]) ≠
      List.filter
        (fun s => List.any ["effects on ability to drive and use machines today"]
          (claimedSmpcMatch s))
        [⟨"4.7", "Effects on ability to drive and use machines", ""⟩] :=
  ⟨by decide, by decide, by decide⟩

/-- C4 amended: with a non-empty request list, a parsed section is kept
iff some request entry satisfies: the section code equals the request
verbatim or equals the request lowercased-and-trimmed, or the section
title contains the lowercased request as a case-insensitive substring
(one direction only), or the first synonym keyword rule the request
triggers (in the fixed order) names the section code. -/
theorem smpc_filter_amended (results : List SmpcSection) (reqs : List String)
    (h : reqs ≠ []) :
    filterSmpcSections results (some reqs) =
      results.filter (fun s => reqs.any (amendedSmpcMatch s)) := by
  have hfun : smpcMatches = amendedSmpcMatch :=
    funext fun s => funext fun req => smpcMatches_eq_amended s req
  unfold filterSmpcSections
  dsimp only
  rw [if_pos (by cases reqs with
    | nil => exact absurd rfl h
    | cons a l => simp), hfun]

set_option maxHeartbeats 1600000 in
/-- C4 amended witness: a side-effect request keeps exactly the
undesirable-effects section. -/
theorem smpc_filter_amended_witness :
    (["side effects"] : List String) ≠ [] ∧
    filterSmpcSections
        [⟨"4.8", "Undesirable effects", "x"⟩, ⟨"4.1", "Therapeutic indications", "y"⟩]
        (some ["side effects"]) =
      [⟨"4.8", "Undesirable effects", "x"⟩] :=
  ⟨by decide,
   (smpc_filter_amended
      [⟨"4.8", "Undesirable effects", "x"⟩, ⟨"4.1", "Therapeutic indications", "y"⟩]
      ["side effects"] (by decide)).trans (by decide)⟩

/-- The section list of the standalone UK label record
(`registerSmpcTool`, src/src/tools/smpc.ts lines 45-52): the parsed
sections, filtered by the request, are copied field-for-field into the
result, with no per-code deduplication. -/
def smpcResultSections (parsed : List SmpcSection) (requested : Option (List String)) :
    List SmpcSection :=
  (filterSmpcSections parsed requested).map (fun s => ⟨s.code, s.title, s.content⟩)

/-- C6 counterexample: when the UK segmenter emits two sections with
the same code (its structural strategy can match both a container whose
id contains the word section and the heading inside it), the standalone
UK label record returns both, so a produced label record holds two
sections with one code and the first-emitted duplicate is not
discarded. -/
theorem labelRecord_dup_codes_counterexample :
    smpcResultSections
        [⟨"4.8", "Undesirable effects", "container text"⟩,
         ⟨"4.8", "Undesirable effects", "heading text"⟩] none =
      [⟨"4.8", "Undesirable effects", "container text"⟩,
       ⟨"4.8", "Undesirable effects", "heading text"⟩] ∧
    ¬ ((smpcResultSections
        [⟨"4.8", "Undesirable effects", "container text"⟩,
         ⟨"4.8", "Undesirable effects", "heading text"⟩] none).map
          (fun s => s.code)).Nodup :=
  ⟨by decide, by decide⟩

/-! ## US label extraction (`registerUspiTool` and `resolveLoincCodes`,
src/unnamed/part_005) -/

/-- `LOINC_MAP`: section-name keys to LOINC codes, in source order. -/
def LOINC_MAP : List (String × String) :=
  [("boxed warning", "34071-1"),
   ("indications", "34067-9"),
   ("indications and usage", "34067-9"),
   ("dosage", "34068-7"),
   ("dosage and administration", "34068-7"),
   ("dosage forms", "43678-2"),
   ("contraindications", "34070-3"),
   ("warnings", "43685-7"),
   ("warnings and precautions", "43685-7"),
   ("adverse reactions", "34084-4"),
   ("drug interactions", "34073-7"),
   ("use in specific populations", "42228-7"),
   ("pregnancy", "42228-7"),
   ("overdosage", "34088-5"),
   ("clinical pharmacology", "34090-1"),
   ("description", "34089-3"),
   ("how supplied", "34069-5"),
   ("storage", "44425-7"),
   ("patient counseling", "34076-0"),
   ("medication guide", "42231-1")]

/-- First-occurrence deduplication, as `[...new Set(xs)]`. -/
def dedupFirst (l : List String) : List String :=
  l.foldl (fun acc x => if acc.contains x then acc else acc ++ [x]) []

/-- `ALL_PI_CODES`: the full known-code list. -/
def ALL_PI_CODES : List String :=
  dedupFirst (LOINC_MAP.map Prod.snd)

/-- The direct-code test `/^\d{5}-\d$/`. -/
def isLoincCode (s : String) : Bool :=
  match s.data with
  | [a, b, c, d, e, dash, f] =>
    a.isDigit && b.isDigit && c.isDigit && d.isDigit && e.isDigit
      && dash == '-' && f.isDigit
  | _ => false

/-- `resolveLoincCodes`: no request (or an empty one) resolves to
nothing; otherwise each input is lowercased and trimmed, accepted
verbatim when it is a direct code, else fuzzy-matched against the first
map entry whose name contains it or that it contains; an empty
resolution is reported as nothing. -/
def resolveLoincCodes (sections : Option (List String)) : Option (List String) :=
  match sections with
  | none => none
  | some [] => none
  | some inputs =>
    let codes := inputs.foldl (fun codes input =>
      let lower := jsTrimStr (jsToLower input)
      if isLoincCode lower then codes ++ [lower]
      else
        match LOINC_MAP.find? (fun nm => strContains nm.1 lower || strContains lower nm.1) with
        | some nm => codes ++ [nm.2]
        | none => codes) []
    if codes.length > 0 then some codes else none

/-- One section component of a structured-product-label body, already
flattened to its declared code, title and text content. -/
structure SplComponent where
  code : String
  title : String
  content : String
deriving DecidableEq

/-- Modelled from the spec: `parseSplSections` is imported from the
xml-parser module but its definition is not under src/; §4.4 says to
walk the component hierarchy and, for every component whose declared
code matches a requested code (or the fixed full known-code list when
none is requested), emit a Section keyed by that code with its title
and flattened content. -/
def parseSplSections (components : List SplComponent) (requested : Option (List String)) :
    List LabelSection :=
  let codes := match requested with | some cs => cs | none => ALL_PI_CODES
  components.filterMap (fun c =>
    if codes.contains c.code then some ⟨c.code, c.title, c.content⟩ else none)

/-- The section assembly of `registerUspiTool` (src/unnamed/part_005
lines 108-118): resolve the requested names to codes, extract, and on
an empty result retry with the full known-code list. -/
def uspiSections (components : List SplComponent) (sections : Option (List String)) :
    List LabelSection :=
  let requestedCodes := resolveLoincCodes sections
  let raw := parseSplSections components requestedCodes
  if raw.length > 0 then raw
  else parseSplSections components (some ALL_PI_CODES)

/-- C3: if filtering by an explicitly requested code set yields zero
sections, extraction is retried with the full known-code list; an
unrecognized request resolves to no codes and yields the full
known-code section set; whenever the document carries any recognized
code the result is non-empty. -/
theorem uspi_fallback (components : List SplComponent) (sections : Option (List String)) :
    (parseSplSections components (resolveLoincCodes sections) = [] →
      uspiSections components sections = parseSplSections components (some ALL_PI_CODES)) ∧
    (resolveLoincCodes sections = none →
      uspiSections components sections = parseSplSections components (some ALL_PI_CODES)) ∧
    (components.any (fun c => ALL_PI_CODES.contains c.code) = true →
      uspiSections components sections ≠ []) := by
  have hfull : components.any (fun c => ALL_PI_CODES.contains c.code) = true →
      parseSplSections components (some ALL_PI_CODES) ≠ [] := by
    intro h
    obtain ⟨c, hc, hcode⟩ := List.any_eq_true.mp h
    apply List.ne_nil_of_mem (a := (⟨c.code, c.title, c.content⟩ : LabelSection))
    apply List.mem_filterMap.mpr
    exact ⟨c, hc, by rw [if_pos hcode]⟩
  refine ⟨fun h => ?_, fun h => ?_, fun h => ?_⟩
  · simp only [uspiSections, h]
    rfl
  · simp only [uspiSections, h]
    split_ifs <;> rfl
  · simp only [uspiSections]
    split_ifs with hlen
    · intro hc
      rw [hc] at hlen
      simp at hlen
    · exact hfull h

/-- C3 witness: requesting the unrecognized code string zzz against a
document holding one recognized-code section returns that full
known-code section set, not the empty list. -/
theorem uspi_fallback_witness :
    resolveLoincCodes (some ["zzz"]) = none ∧
    uspiSections [⟨"34067-9", "INDICATIONS", "use"⟩] (some ["zzz"]) =
      [⟨"34067-9", "INDICATIONS", "use"⟩] ∧
    ([⟨"34067-9", "INDICATIONS", "use"⟩] : List SplComponent).any
      (fun c => ALL_PI_CODES.contains c.code) = true ∧
    uspiSections [⟨"34067-9", "INDICATIONS", "use"⟩] (some ["zzz"]) ≠ [] :=
  ⟨by decide,
   ((uspi_fallback [⟨"34067-9", "INDICATIONS", "use"⟩] (some ["zzz"])).2.1
      (by decide)).trans (by decide),
   by decide,
   (uspi_fallback [⟨"34067-9", "INDICATIONS", "use"⟩] (some ["zzz"])).2.2 (by decide)⟩

/-! ## Theorems for claims C1 and C8 -/

/-- C1: in the APA-like style, an author list of at most 7 authors is
listed in full (each author as surname plus initialed given names) and
never elided, while a list of more than 7 authors always elides to
exactly the first 6 authors, an ellipsis marker, and the final author. -/
theorem formatApa_author_elision (authors : List String) :
    (authors.length ≤ 7 →
      formatApaAuthors authors = String.intercalate ", " (authors.map formatApaAuthor)) ∧
    (7 < authors.length →
      formatApaAuthors authors =
        String.intercalate ", " ((authors.take 6).map formatApaAuthor)
          ++ ", ... " ++ formatApaAuthor authors.getLast!) := by
  constructor
  · intro h
    by_cases h0 : authors.length = 0
    · have hnil : authors = [] := List.length_eq_zero.mp h0
      subst hnil
      simp [formatApaAuthors, String.intercalate]
    · simp [formatApaAuthors, h0, h]
  · intro h
    have h0 : ¬ authors.length = 0 := by omega
    have h7 : ¬ authors.length ≤ 7 := by omega
    simp [formatApaAuthors, h0, h7]

/-- C1 witness: an 8-author list elides to first 6 + ellipsis + last,
and a 7-author list is listed in full. -/
theorem formatApa_author_elision_witness :
    (7 < (["Adams Alice", "Brown Bob", "Chen Carol", "Diaz Dan", "Evans Eve",
           "Ford Fay", "Gray Guy", "Hunt Hal"] : List String).length ∧
      formatApaAuthors ["Adams Alice", "Brown Bob", "Chen Carol", "Diaz Dan",
          "Evans Eve", "Ford Fay", "Gray Guy", "Hunt Hal"] =
        "Adams, A., Brown, B., Chen, C., Diaz, D., Evans, E., Ford, F., ... Hunt, H.") ∧
    ((["Adams Alice", "Brown Bob", "Chen Carol", "Diaz Dan", "Evans Eve",
       "Ford Fay", "Gray Guy"] : List String).length ≤ 7 ∧
      formatApaAuthors ["Adams Alice", "Brown Bob", "Chen Carol", "Diaz Dan",
          "Evans Eve", "Ford Fay", "Gray Guy"] =
        "Adams, A., Brown, B., Chen, C., Diaz, D., Evans, E., Ford, F., Gray, G.") :=
  ⟨⟨by decide,
    ((formatApa_author_elision ["Adams Alice", "Brown Bob", "Chen Carol", "Diaz Dan",
        "Evans Eve", "Ford Fay", "Gray Guy", "Hunt Hal"]).2 (by decide)).trans (by decide)⟩,
   ⟨by decide,
    ((formatApa_author_elision ["Adams Alice", "Brown Bob", "Chen Carol", "Diaz Dan",
        "Evans Eve", "Ford Fay", "Gray Guy"]).1 (by decide)).trans (by decide)⟩⟩

/-- The manual list recursion of `extractList` is an ordinary map. -/
theorem extractList_eq_map (es : List JVal) :
    extractList es = es.map extractText := by
  induction es with
  | nil => rfl
  | cons v vs ih => simp [extractList, ih]

/-- The manual recursion of `extractFields` filters out attribute
fields and maps the per-field extraction over the rest. -/
theorem extractFields_eq_map (fs : List (String × JVal)) :
    extractFields fs =
      (fs.filter (fun kv => !keyIsAttr kv.1)).map (fun kv =>
        match kv.2 with
        | .jarr es => String.intercalate " " (es.map extractText)
        | v => extractText v) := by
  induction fs with
  | nil => rfl
  | cons kv fs ih =>
    obtain ⟨k, v⟩ := kv
    by_cases hk : keyIsAttr k
    · cases v <;> simp [extractFields, hk, ih]
    · cases v <;> simp [extractFields, hk, ih, extractList_eq_map]

/-- C7: the TreeText extractor is total; null/absent input yields the
empty string; a node carrying a direct text value returns it verbatim;
otherwise every non-attribute child field is recursively extracted
(array-valued children element-wise, joined with a single space), the
pieces are joined with a single space, and the whole is trimmed. -/
theorem extractText_total_spec :
    (extractText .jnull = "") ∧
    (∀ s, extractText (.jstr s) = s) ∧
    (∀ fs t, findTextVal fs = some (.jstr t) → extractText (.jobj fs) = t) ∧
    (∀ fs, findTextVal fs = none →
      extractText (.jobj fs) =
        jsTrimStr (String.intercalate " "
          ((fs.filter (fun kv => !keyIsAttr kv.1)).map (fun kv =>
            match kv.2 with
            | .jarr es => String.intercalate " " (es.map extractText)
            | v => extractText v)))) := by
  refine ⟨rfl, fun s => rfl, fun fs t h => ?_, fun fs h => ?_⟩
  · simp [extractText, h, jsString]
  · simp [extractText, h, extractFields_eq_map]

/-- C7 witness: a direct-text node and an attribute-plus-children node
evaluated concretely. -/
theorem extractText_total_spec_witness :
    (findTextVal [("#text", JVal.jstr "42 km")] = some (.jstr "42 km") ∧
      extractText (.jobj [("#text", JVal.jstr "42 km")]) = "42 km") ∧
    (findTextVal [("@_attr", JVal.jstr "x"), ("a", JVal.jstr " hello"),
        ("b", JVal.jarr [.jstr "w1", .jstr "w2"])] = none ∧
      extractText (.jobj [("@_attr", JVal.jstr "x"), ("a", JVal.jstr " hello"),
        ("b", JVal.jarr [.jstr "w1", .jstr "w2"])]) = "hello w1 w2") :=
  ⟨⟨rfl, extractText_total_spec.2.2.1 [("#text", JVal.jstr "42 km")] "42 km" rfl⟩,
   ⟨rfl, (extractText_total_spec.2.2.2
      [("@_attr", JVal.jstr "x"), ("a", JVal.jstr " hello"),
       ("b", JVal.jarr [.jstr "w1", .jstr "w2"])] rfl).trans (by decide)⟩⟩

/-- C10: the author parser never emits an empty-string author entry,
and an author element with no surname, given name, initials, or
collective name contributes nothing, so the output can be shorter than
the input. -/
theorem parseAuthors_no_empty :
    (∀ authors, ∀ s ∈ parseAuthors authors, s ≠ "") ∧
    (∀ (a : Author) authors, a.LastName = "" → a.ForeName = "" → a.Initials = "" →
      a.CollectiveName = "" → parseAuthors (a :: authors) = parseAuthors authors) := by
  constructor
  · intro authors s hs
    have := List.of_mem_filter hs
    simpa using this
  · intro a authors h1 h2 h3 h4
    have ha : authorString a = "" := by
      simp [authorString, h1, h2, h3, h4]
    simp [parseAuthors, ha]

/-- C10 witness: an author element with all four fields absent is
dropped while a normal author survives. -/
theorem parseAuthors_no_empty_witness :
    (⟨"", "", "", ""⟩ : Author).LastName = "" ∧
    parseAuthors [⟨"", "", "", ""⟩, ⟨"Smith", "John", "J", ""⟩] =
      parseAuthors [⟨"Smith", "John", "J", ""⟩] :=
  ⟨rfl, parseAuthors_no_empty.2 ⟨"", "", "", ""⟩ [⟨"Smith", "John", "J", ""⟩]
    rfl rfl rfl rfl⟩

/-- C9 counterexample: at the cited extraction sites the value of the
matching identifier entry is returned verbatim; a value carrying a
doi-colon marker keeps it, contradicting the claimed stripping. -/
theorem extractDoi_no_strip_counterexample :
    extractDoi (.jobj [("@_EIdType", JVal.jstr "doi"), ("#text", JVal.jstr "doi:10.1000/xyz")]) =
      "doi:10.1000/xyz" ∧
    stripDoiMarker "doi:10.1000/xyz" = "10.1000/xyz" ∧
    extractDoi (.jobj [("@_EIdType", JVal.jstr "doi"), ("#text", JVal.jstr "doi:10.1000/xyz")]) ≠
      stripDoiMarker (extractDoi (.jobj [("@_EIdType", JVal.jstr "doi"),
        ("#text", JVal.jstr "doi:10.1000/xyz")])) :=
  ⟨by decide, by decide, by decide⟩

/-- C9 amended: DOI extraction scans the alternate-identifier list and
returns, verbatim (no prefix stripping), the extracted text of the
first entry whose identifier-type attribute equals doi. -/
theorem extractDoi_first_match (eloc eid : JVal) (pre post : List JVal)
    (htruthy : jsTruthy eloc = true)
    (hids : toIds eloc = pre ++ eid :: post)
    (hpre : ∀ e ∈ pre, isDoiEntry e = false)
    (hdoi : isDoiEntry eid = true) :
    extractDoi eloc = extractText eid := by
  unfold extractDoi
  rw [if_pos htruthy, hids]
  clear hids htruthy
  induction pre with
  | nil => simp [doiLoop, hdoi]
  | cons e es ih =>
    have he : isDoiEntry e = false := hpre e (by simp)
    simp only [List.cons_append, doiLoop, he]
    exact ih (fun x hx => hpre x (by simp [hx]))

/-- C9 amended witness: a two-entry identifier list where the second
entry is the doi entry. -/
theorem extractDoi_first_match_witness :
    jsTruthy (JVal.jarr [.jobj [("@_EIdType", JVal.jstr "pii")],
        .jobj [("@_EIdType", JVal.jstr "doi"), ("#text", JVal.jstr "10.1000/xyz")]]) = true ∧
    extractDoi (.jarr [.jobj [("@_EIdType", JVal.jstr "pii")],
        .jobj [("@_EIdType", JVal.jstr "doi"), ("#text", JVal.jstr "10.1000/xyz")]]) =
      "10.1000/xyz" :=
  ⟨rfl,
   (extractDoi_first_match
      (.jarr [.jobj [("@_EIdType", JVal.jstr "pii")],
        .jobj [("@_EIdType", JVal.jstr "doi"), ("#text", JVal.jstr "10.1000/xyz")]])
      (.jobj [("@_EIdType", JVal.jstr "doi"), ("#text", JVal.jstr "10.1000/xyz")])
      [.jobj [("@_EIdType", JVal.jstr "pii")]] [] rfl rfl
      (by intro e he; simp at he; subst he; rfl) rfl).trans (by decide)⟩

/-- C8: the drug-name normalizer truncates at the manufacturer
separator, strips dosage-form words (plurals included) and salt-form
words as whole words, and collapses punctuation and whitespace; in
particular the two documented examples normalize as stated. -/
theorem normalizeDrugName_examples :
    normalizeDrugName "METFORMIN HYDROCHLORIDE tablet - TEVA PHARMACEUTICALS USA" = "metformin" ∧
    normalizeDrugName "ATORVASTATIN CALCIUM tablets" = "atorvastatin" :=
  ⟨by decide, by decide⟩

end PubCrawl
